import Mathlib

/-!
Verification of the trendscout task-queue subsystem.

Shallow embedding of `src/trendscout/core/queue.py`, the task endpoints in
`src/trendscout/api/endpoints/tasks.py`, and the worker loop in
`src/trendscout/worker.py`.  JSON payloads are modelled by the inductive
`Val`; the Redis backend by an association-list store (`RedisState`); the
durable SQL row by the record `AgentTask`; agent handlers (LLM wrappers,
external to the core) by oracle functions returning either a value or a
raised exception's string form.
-/

namespace Trendscout

/-- JSON-like values: the payloads, cached status blobs and results that the
queue and the task rows carry. -/
inductive Val where
  | vNull : Val
  | vBool (b : Bool) : Val
  | vInt (n : Int) : Val
  | vStr (s : String) : Val
  | vList (xs : List Val) : Val
  | vDict (fields : List (String × Val)) : Val
deriving Repr

/-- First-match association-list lookup: Python `dict` access, and the
Redis key spaces. -/
def getKey {α : Type} : List (String × α) → String → Option α
  | [], _ => none
  | (k', v') :: rest, k => if k' = k then some v' else getKey rest k

/-- Python `d[k] = v` on an insertion-ordered dict (replace in place, or
append when the key is new), and the Redis `SET`. -/
def setKey {α : Type} : List (String × α) → String → α → List (String × α)
  | [], k, v => [(k, v)]
  | (k', v') :: rest, k, v =>
    if k' = k then (k, v) :: rest else (k', v') :: setKey rest k v

/-- `d.get(k)` — `none` when the receiver is not a dict (never happens in the
translated code, whose receivers are typed `dict`). -/
def Val.dget : Val → String → Option Val
  | .vDict fs, k => getKey fs k
  | _, _ => none

/-- `d[k] = v`; identity on non-dicts (never reached: the source only assigns
into values typed `dict`). -/
def Val.dset : Val → String → Val → Val
  | .vDict fs, k, v => .vDict (setKey fs k v)
  | w, _, _ => w

/-- `isinstance(v, dict)`. -/
def Val.isDict : Val → Bool
  | .vDict _ => true
  | _ => false

/-- Python truthiness of a JSON-like value. -/
def truthy : Val → Bool
  | .vNull => false
  | .vBool b => b
  | .vInt n => n != 0
  | .vStr s => s != ""
  | .vList xs => !xs.isEmpty
  | .vDict fs => !fs.isEmpty

/-- Truthiness of a `d.get(k)` result (`None` when the key is absent). -/
def truthyOpt (o : Option Val) : Bool :=
  (o.map truthy).getD false

/-- Python `o == s` between a `d.get(...)` result and a string: `True` only
when the value is that very string (`None` and non-strings compare unequal). -/
def optValEqStr (o : Option Val) (s : String) : Bool :=
  match o with
  | some (.vStr t) => t == s
  | _ => false

/-- The Redis backend: the named lists (`lpush`/`rpop`; the head of the
stored list is the left end) and the plain key-value space (`set`/`get`).
Storing `Val` directly models the `json.dumps`/`json.loads` round trip. -/
structure RedisState where
  lists : List (String × List Val)
  kv : List (String × Val)

/-- List lookup with Redis's empty default for a missing key. -/
def RedisState.getList (r : RedisState) (key : String) : List Val :=
  (getKey r.lists key).getD []

/-- Replace (or create) a named list. -/
def RedisState.setList (r : RedisState) (key : String) (l : List Val) : RedisState :=
  { r with lists := setKey r.lists key l }

/-- `LPUSH key v`: prepend at the left end. -/
def RedisState.lpush (r : RedisState) (key : String) (v : Val) : RedisState :=
  r.setList key (v :: r.getList key)

/-- `SET key v`. -/
def RedisState.kvSet (r : RedisState) (key : String) (v : Val) : RedisState :=
  { r with kv := setKey r.kv key v }

/-- `GET key`. -/
def RedisState.kvGet (r : RedisState) (key : String) : Option Val :=
  getKey r.kv key

/-- `RPOP key`: remove and return the right-end (oldest) element. -/
def RedisState.rpop (r : RedisState) (key : String) : Option Val × RedisState :=
  match (r.getList key).getLast? with
  | some v => (some v, r.setList key (r.getList key).dropLast)
  | none => (none, r)

/-! ### QueueManager (`core/queue.py`) -/

/-- `QueueManager.enqueue_task`.  The wall clock is an explicit argument:
`nowTs` is `str(datetime.utcnow().timestamp())` as it appears inside the
f-string, `nowIso` is `datetime.utcnow().isoformat()`. -/
def enqueue_task (r : RedisState) (queue_name : String) (task_data : Val)
    (nowTs nowIso : String) : String × RedisState :=
  let task_id := queue_name ++ ":" ++ nowTs
  let d := ((task_data.dset "id" (.vStr task_id)).dset "status"
      (.vStr "pending")).dset "created_at" (.vStr nowIso)
  let r := r.lpush ("queue:" ++ queue_name) d
  let r := r.kvSet ("task:" ++ task_id) d
  (task_id, r)

/-- `QueueManager.get_task_status`. -/
def get_task_status (r : RedisState) (task_id : String) : Val :=
  match r.kvGet ("task:" ++ task_id) with
  | some v => v
  | none => .vDict [("status", .vStr "not_found")]

/-- `QueueManager.update_task_status` (defined in the source; no caller in
the repository). -/
def update_task_status (r : RedisState) (task_id status : String)
    (result : Option Val) (nowIso : String) : RedisState :=
  match r.kvGet ("task:" ++ task_id) with
  | some (.vDict fs) =>
    let fs := setKey fs "status" (.vStr status)
    let fs := setKey fs "updated_at" (.vStr nowIso)
    let fs := match result with
      | some res => setKey fs "result" res
      | none => fs
    r.kvSet ("task:" ++ task_id) (.vDict fs)
  | some _ => r
  | none => r

/-- `QueueManager.get_next_task`. -/
def get_next_task (r : RedisState) (queue_name : String) : Option Val × RedisState :=
  r.rpop ("queue:" ++ queue_name)

/-! ### Durable store (`models/task.py`) and system state -/

/-- One row of the `agent_tasks` table. -/
structure AgentTask where
  taskId : String
  agentType : String
  status : String
  inputData : Val
  result : Option Val
  error : Option Val
  userId : Int
  createdAt : Nat
  completedAt : Option Val
  intermediateSteps : Option Val
deriving Repr

/-- The caller's identity, as the endpoints consume it. -/
structure ApiUser where
  id : Int
  isSuperuser : Bool
deriving Repr, DecidableEq

/-- Durable rows (in insertion order) plus the Redis backend.  SQLAlchemy
session plumbing is transparent here: commits apply field assignments to the
stored rows, and a rollback with no uncommitted writes is a no-op. -/
structure SysState where
  db : List AgentTask
  redis : RedisState

/-- The empty deployment: no rows, empty Redis. -/
def initState : SysState := ⟨[], ⟨[], []⟩⟩

/-- The HTTP error classes a task endpoint call can end in:
the three deliberately raised ones, plus `internalError` for an unhandled
exception propagating out of the handler — the framework turns it into an
HTTP 500 and no response body is produced. -/
inductive ApiError where
  | validationError
  | notFound
  | forbidden
  | internalError
deriving Repr, DecidableEq

/-- `schemas.TaskCreate`. -/
structure TaskCreate where
  agentType : String
  inputData : Val

/-- The pydantic pattern `^(trend_analyzer|content_generator|scheduler)$` on
`TaskBase.agent_type` (`api/schemas.py`). -/
def validAgentType (s : String) : Bool :=
  s = "trend_analyzer" || s = "content_generator" || s = "scheduler"

/-- Replace the first element satisfying `p` — the ORM mutating the single
row an earlier `first()` returned, then committing. -/
def updateFirst {α : Type} (p : α → Bool) (f : α → α) : List α → List α
  | [] => []
  | x :: xs => if p x then f x :: xs else x :: updateFirst p f xs

/-- Remove the first element satisfying `p` (`db.delete(task)`). -/
def removeFirst {α : Type} (p : α → Bool) : List α → List α
  | [] => []
  | x :: xs => if p x then xs else x :: removeFirst p xs

/-! ### Task endpoints (`api/endpoints/tasks.py`) -/

/-- `create_task` (POST /tasks/): pydantic validation of the body, then the
handler: insert the `pending` row keyed by a fresh UUID, then enqueue the
work item on the queue named after the agent type.  `uuid` is the value of
`str(uuid.uuid4())`; `nowDb` the DB server clock backing `created_at`;
`nowTs`/`nowIso` the worker-side clock readings used inside `enqueue_task`. -/
def create_task (s : SysState) (userId : Int) (task_in : TaskCreate)
    (uuid : String) (nowDb : Nat) (nowTs nowIso : String) :
    Except ApiError AgentTask × SysState :=
  if validAgentType task_in.agentType then
    let db_task : AgentTask :=
      { taskId := uuid, agentType := task_in.agentType, status := "pending",
        inputData := task_in.inputData, result := none, error := none,
        userId := userId, createdAt := nowDb, completedAt := none,
        intermediateSteps := none }
    let s1 : SysState := { s with db := s.db ++ [db_task] }
    let payload : Val := .vDict
      [("task_id", .vStr uuid), ("agent_type", .vStr task_in.agentType),
       ("input_data", task_in.inputData), ("user_id", .vInt userId)]
    let r := (enqueue_task s1.redis task_in.agentType payload nowTs nowIso).2
    (.ok db_task, { s1 with redis := r })
  else
    (.error .validationError, s)

/-- `task.status = queue_status.get("status", task.status)`.  Every writer of
a cache blob stores a string under `"status"` (the `pending` stamp, the
`not_found` sentinel, `update_task_status`), so the non-string case is dead
code; it keeps the old status. -/
def statusOrDefault : Option Val → String → String
  | some (.vStr sNew), _ => sNew
  | _, dflt => dflt

/-- Lines 223–231 of `read_task`, shared verbatim with the per-item loop of
`list_tasks`: fold the queue's cached status blob into the row. -/
def reconcile_task (r : RedisState) (task : AgentTask) : AgentTask :=
  let queue_status := get_task_status r task.taskId
  if optValEqStr (queue_status.dget "status") task.status then task
  else
    let task := { task with
      status := statusOrDefault (queue_status.dget "status") task.status }
    let task := match queue_status.dget "result" with
      | some res => { task with result := some res }
      | none => task
    if task.status = "completed" || task.status = "failed" then
      { task with completedAt := queue_status.dget "updated_at" }
    else task

/-- `read_task` (GET /tasks/\x7btask_id\x7d): fetch, 404 when absent, 403 for
a non-owner non-superuser, else reconcile against the queue cache and commit. -/
def read_task (s : SysState) (task_id : String) (u : ApiUser) :
    Except ApiError AgentTask × SysState :=
  match s.db.find? (fun t => t.taskId == task_id) with
  | none => (.error .notFound, s)
  | some task =>
    if task.userId != u.id && !u.isSuperuser then
      (.error .forbidden, s)
    else
      let task' := reconcile_task s.redis task
      (.ok task',
        { s with db := updateFirst (fun t => t.taskId == task_id) (fun _ => task') s.db })

/-- The `if status:` / `if agent_type:` guards: Python truthiness of an
optional string query parameter. -/
def strOptTruthy : Option String → Bool
  | some sVal => sVal != ""
  | none => false

/-- `query.filter(AgentTask.user_id == current_user.id)` unless superuser. -/
def visibleTasks (db : List AgentTask) (u : ApiUser) : List AgentTask :=
  if u.isSuperuser then db else db.filter (fun t => t.userId == u.id)

/-- `if status: query = query.filter(AgentTask.status == status)`. -/
def applyStatusFilter (statusF : Option String) (l : List AgentTask) :
    List AgentTask :=
  if strOptTruthy statusF then l.filter (fun t => t.status == statusF.getD "")
  else l

/-- `if agent_type: query = query.filter(AgentTask.agent_type == agent_type)`. -/
def applyAgentTypeFilter (agentTypeF : Option String) (l : List AgentTask) :
    List AgentTask :=
  if strOptTruthy agentTypeF
  then l.filter (fun t => t.agentType == agentTypeF.getD "")
  else l

/-- Stable descending insertion by `createdAt` (`order_by(created_at.desc())`). -/
def insertDesc (t : AgentTask) : List AgentTask → List AgentTask
  | [] => [t]
  | x :: xs => if x.createdAt < t.createdAt then t :: x :: xs else x :: insertDesc t xs

def sortByCreatedDesc (l : List AgentTask) : List AgentTask :=
  l.foldr insertDesc []

/-- `list_tasks` (GET /tasks/): owner scope unless superuser, the optional
status / agent-type filters, count, order + offset/limit, then the per-item
reconciliation of the selected page, committed back to the store.  The
handler then calls `db.refresh_all(tasks)` — but an SQLAlchemy `Session`
has no `refresh_all` method, so the call raises `AttributeError` after the
commit: the endpoint never returns the `\x7btasks, total\x7d` body, and
every call ends in an HTTP 500 with the reconciled statuses already
committed. -/
def list_tasks (s : SysState) (u : ApiUser) (skip limit : Nat)
    (statusF agentTypeF : Option String) :
    Except ApiError (List AgentTask × Nat) × SysState :=
  let q3 := applyAgentTypeFilter agentTypeF
    (applyStatusFilter statusF (visibleTasks s.db u))
  let tasks := ((sortByCreatedDesc q3).drop skip).take limit
  let tasks' := tasks.map (reconcile_task s.redis)
  let db' := tasks'.foldl
    (fun acc t => updateFirst (fun x => x.taskId == t.taskId) (fun _ => t) acc) s.db
  (.error .internalError, { s with db := db' })

/-- `delete_task` (DELETE /tasks/\x7btask_id\x7d). -/
def delete_task (s : SysState) (task_id : String) (u : ApiUser) :
    Except ApiError String × SysState :=
  match s.db.find? (fun t => t.taskId == task_id) with
  | none => (.error .notFound, s)
  | some task =>
    if task.userId != u.id && !u.isSuperuser then
      (.error .forbidden, s)
    else
      (.ok "Task deleted successfully",
        { s with db := removeFirst (fun t => t.taskId == task_id) s.db })

/-! ### Worker (`worker.py`) -/

mutual

/-- Python `repr` of a JSON-like value (string escaping elided). -/
def pyRepr : Val → String
  | .vNull => "None"
  | .vBool b => cond b "True" "False"
  | .vInt n => toString n
  | .vStr s => "'" ++ s ++ "'"
  | .vList xs => "[" ++ String.intercalate ", " (pyReprList xs) ++ "]"
  | .vDict fs => "\x7b" ++ String.intercalate ", " (pyReprFields fs) ++ "\x7d"

def pyReprList : List Val → List String
  | [] => []
  | x :: xs => pyRepr x :: pyReprList xs

def pyReprFields : List (String × Val) → List String
  | [] => []
  | (k, v) :: fs => ("'" ++ k ++ "': " ++ pyRepr v) :: pyReprFields fs

end

/-- Python `str` of a JSON-like value. -/
def pyStr : Val → String
  | .vStr s => s
  | v => pyRepr v

/-- `str(...)` of a `d.get(...)` result. -/
def pyOptStr : Option Val → String
  | some v => pyStr v
  | none => "None"

/-- What a call into an agent does: return a value, or raise an exception
whose `str(e)` is `msg`.  Agents wrap a text-generation backend, so their
behaviour is an oracle of the embedding. -/
inductive HandlerOutcome where
  | ok (v : Val)
  | raised (msg : String)

/-- The four handlers the worker dispatches to: `TrendAnalyzerAgent.run`,
`ContentGeneratorAgent.run`, `SchedulerAgent.run`,
`run_trend_to_post_workflow`. -/
structure Handlers where
  trendAnalyzer : Val → HandlerOutcome
  contentGenerator : Val → HandlerOutcome
  scheduler : Val → HandlerOutcome
  trendToPostCrew : Val → HandlerOutcome

/-- Outcome of the dispatch chain: a handler ran (and returned or raised), or
an `error_message` was recorded without running one. -/
inductive Dispatched where
  | result (o : HandlerOutcome)
  | errMsg (m : String)

/-- Lines 49–74 of `process_task`: the if/elif dispatch on `agent_type`. -/
def dispatch_agent (h : Handlers) (agent_type : Option Val) (input_data : Val) :
    Dispatched :=
  if optValEqStr agent_type "trend_analyzer" then
    .result (h.trendAnalyzer ((input_data.dget "query").getD (.vStr "")))
  else if optValEqStr agent_type "content_generator" then
    .result (h.contentGenerator ((input_data.dget "query").getD (.vStr "")))
  else if optValEqStr agent_type "scheduler" then
    .result (h.scheduler ((input_data.dget "query").getD (.vStr "")))
  else if optValEqStr agent_type "trend_to_post_crew" then
    match input_data.dget "topic" with
    | some topic =>
      if truthy topic then .result (h.trendToPostCrew topic)
      else .errMsg "Missing topic for trend_to_post_crew"
    | none => .errMsg "Missing topic for trend_to_post_crew"
  else
    .errMsg ("Unknown agent type: " ++ pyOptStr agent_type)

/-- The work-item predicate of the worker's row lookup:
`AgentTask.task_id == task_data.get("task_id")` (no match when the key is
absent, mirroring the SQL `IS NULL` comparison on a non-null column). -/
def workItemMatches (task_data : Val) (t : AgentTask) : Bool :=
  optValEqStr (task_data.dget "task_id") t.taskId

/-- The durable row as `process_task` finally commits it, given the found
row.  The interim `status="running"` commit is subsumed by the final one
(single-threaded dispatch; no other operation runs in between).  In the
except-branch the rollback discards nothing, because the only committed
write so far was `status="running"`; `details` is `vars(e)`, the (empty)
attribute dict of a plain exception. -/
def process_outcome (h : Handlers) (task_data : Val) (row : AgentTask) :
    AgentTask :=
  let input_data := (task_data.dget "input_data").getD (.vDict [])
  let agent_type := task_data.dget "agent_type"
  let running := { row with status := "running" }
  match dispatch_agent h agent_type input_data with
  | .errMsg m =>
    { running with
      status := "failed", error := some (.vStr m),
      result := some (.vDict [("error", .vStr m)]) }
  | .result (.raised m) =>
    { running with
      status := "failed", error := some (.vStr m),
      result := some (.vDict [("error", .vStr m), ("details", .vDict [])]) }
  | .result (.ok res) =>
    if res.isDict && truthyOpt (res.dget "error") then
      { running with
        status := "failed", error := res.dget "error", result := some res }
    else if optValEqStr agent_type "trend_to_post_crew" then
      -- CrewOutput serialization: handler outcomes are JSON values here,
      -- which carry none of the probed CrewOutput attributes, so the source
      -- falls through to `final_output = str(result_obj)`, adds the topic,
      -- and stores no intermediate steps.
      { running with
        status := "completed",
        result := some (.vDict
          [("final_output", .vStr (pyStr res)),
           ("topic", (input_data.dget "topic").getD (.vStr "N/A"))]),
        intermediateSteps := none }
    else
      -- single agents: a JSON-like result falls in the
      -- `isinstance(result_obj, (dict, list, str, int, float, bool))` / None
      -- arm and is stored as-is
      { running with status := "completed", result := some res }

/-- `worker.process_task`: load the row the work item names; when missing,
log and abandon; otherwise commit the processed row. -/
def process_task (s : SysState) (h : Handlers) (task_data : Val) : SysState :=
  match s.db.find? (workItemMatches task_data) with
  | none => s
  | some row =>
    { s with
      db := updateFirst (workItemMatches task_data)
        (fun _ => process_outcome h task_data row) s.db }

/-- The queues `main_worker_loop` monitors. -/
def queues_to_monitor : List String :=
  ["trend_analyzer", "content_generator", "scheduler", "trend_to_post_crew"]

/-- One iteration of the inner `for queue_name in queues_to_monitor` body:
a non-blocking `rpop` (the raw `redis_client.rpop` call equals
`get_next_task`), then `process_task` on the decoded item; `json.loads`
cannot fail on a stored value.  The surrounding `try/except` isolates
per-item failures, which `process_task` already absorbs here. -/
def worker_step (h : Handlers) (s : SysState) (queue_name : String) : SysState :=
  match get_next_task s.redis queue_name with
  | (some task_data, r') => process_task { s with redis := r' } h task_data
  | (none, _) => s

def passOver (h : Handlers) (qs : List String) (s : SysState) : SysState :=
  qs.foldl (worker_step h) s

/-- One full cycle of `main_worker_loop` across all monitored queues (the
sleep taken when no item was found affects timing only). -/
def worker_pass (s : SysState) (h : Handlers) : SysState :=
  passOver h queues_to_monitor s

/-- `n` cycles of the unbounded worker loop. -/
def worker_run : Nat → SysState → Handlers → SysState
  | 0, s, _ => s
  | n + 1, s, h => worker_run n (worker_pass s h) h

/-! ### Whole-system operations -/

/-- One externally triggered operation of the system. -/
inductive Op where
  | create (userId : Int) (task_in : TaskCreate) (uuid : String)
      (nowDb : Nat) (nowTs nowIso : String)
  | read (task_id : String) (u : ApiUser)
  | listOp (u : ApiUser) (skip limit : Nat) (statusF agentTypeF : Option String)
  | del (task_id : String) (u : ApiUser)
  | workerPass (h : Handlers)
  | updateStatus (task_id status : String) (result : Option Val) (nowIso : String)

def applyOp (s : SysState) : Op → SysState
  | .create uid tin uuid nd ts iso => (create_task s uid tin uuid nd ts iso).2
  | .read tid u => (read_task s tid u).2
  | .listOp u skip limit stF atF => (list_tasks s u skip limit stF atF).2
  | .del tid u => (delete_task s tid u).2
  | .workerPass h => worker_pass s h
  | .updateStatus tid st res iso =>
    { s with redis := update_task_status s.redis tid st res iso }

/-- The state after a sequence of operations on a fresh deployment. -/
def runOps (ops : List Op) : SysState := ops.foldl applyOp initState

/-- UUID4 strings are hex digits and dashes, hence colon-free; the
reachability theorems assume only this about the ids the API generates. -/
def Op.uuidOk : Op → Prop
  | .create _ _ uuid _ _ _ => ':' ∉ uuid.data
  | _ => True

/-! ### Observation helpers and concrete scenarios -/

/-- Repeatedly dequeue (`get_next_task`) with the given fuel, collecting the
items in the order they come back. -/
def drainFrom : RedisState → String → Nat → List Val
  | _, _, 0 => []
  | r, q, n + 1 =>
    match get_next_task r q with
    | (some v, r') => v :: drainFrom r' q n
    | (none, _) => []

/-- The payload as `enqueue_task` mutates it before pushing: handle into
`"id"`, `"status": "pending"`, `"created_at"`. -/
def stamped (d : Val) (handle iso : String) : Val :=
  ((d.dset "id" (.vStr handle)).dset "status" (.vStr "pending")).dset
    "created_at" (.vStr iso)

/-- A trend-analysis submission body. -/
def tinTA : TaskCreate := ⟨"trend_analyzer", .vDict [("query", .vStr "electric bikes")]⟩

/-- User 1, not privileged. -/
def owner1 : ApiUser := ⟨1, false⟩

/-- The state right after user 1 submits `tinTA`, receiving UUID `"a1"`;
the enqueue call read clock `1.0`. -/
def sAfterCreate : SysState := (create_task initState 1 tinTA "a1" 0 "1.0" "t0").2

/-- Handlers whose runs all succeed with a plain result. -/
def handlersOk : Handlers :=
  ⟨fun _ => .ok (.vDict [("trends", .vList []), ("analysis", .vStr "a")]),
   fun _ => .ok .vNull, fun _ => .ok .vNull, fun _ => .ok .vNull⟩

/-- Handlers whose trend analyzer returns a mapping with an `"error"` key
bound to the empty string — a falsy value. -/
def handlersFalsyError : Handlers :=
  ⟨fun _ => .ok (.vDict [("error", .vStr "")]),
   fun _ => .ok .vNull, fun _ => .ok .vNull, fun _ => .ok .vNull⟩

/-- Handlers whose trend analyzer returns a mapping with a truthy `"error"`. -/
def handlersTruthyError : Handlers :=
  ⟨fun _ => .ok (.vDict [("error", .vStr "boom")]),
   fun _ => .ok .vNull, fun _ => .ok .vNull, fun _ => .ok .vNull⟩

/-- Handlers whose trend analyzer raises an exception with empty `str(e)`,
as `raise ValueError()` produces. -/
def handlersRaiseEmpty : Handlers :=
  ⟨fun _ => .raised "", fun _ => .ok .vNull, fun _ => .ok .vNull, fun _ => .ok .vNull⟩

/-- Handlers whose trend analyzer raises with message `"boom"`. -/
def handlersRaiseBoom : Handlers :=
  ⟨fun _ => .raised "boom", fun _ => .ok .vNull, fun _ => .ok .vNull, fun _ => .ok .vNull⟩

/-- A durable row already in the `completed` state, owned by user 1. -/
def rowCompleted : AgentTask :=
  { taskId := "aaa", agentType := "trend_analyzer", status := "completed",
    inputData := .vDict [], result := some (.vDict [("analysis", .vStr "a")]),
    error := none, userId := 1, createdAt := 5, completedAt := none,
    intermediateSteps := none }

/-- A store holding exactly `rowCompleted`, with an empty queue backend
(its status blob, if it ever existed, has been evicted or — as the key
mismatch guarantees — was never stored under this id). -/
def sOneCompleted : SysState := ⟨[rowCompleted], ⟨[], []⟩⟩

/-- The single submission of `tinTA` as an operation sequence. -/
def opsOneCreate : List Op := [.create 1 tinTA "a1" 0 "1.0" "t0"]

/-- The work item `sAfterCreate`'s submission pushed — what the worker
dequeues. -/
def taskDataA1 : Val := .vDict
  [("task_id", .vStr "a1"), ("agent_type", .vStr "trend_analyzer"),
   ("input_data", .vDict [("query", .vStr "electric bikes")]),
   ("user_id", .vInt 1), ("id", .vStr "trend_analyzer:1.0"),
   ("status", .vStr "pending"), ("created_at", .vStr "t0")]

/-- The durable row `sAfterCreate`'s submission created. -/
def rowA1 : AgentTask :=
  { taskId := "a1", agentType := "trend_analyzer", status := "pending",
    inputData := .vDict [("query", .vStr "electric bikes")], result := none,
    error := none, userId := 1, createdAt := 0, completedAt := none,
    intermediateSteps := none }

/-- Every key in the queue backend's kv space was written by `enqueue_task`
or `update_task_status`: it is `"task:" ++ handle` for a handle containing
a colon separator. -/
def KvHandleShaped (r : RedisState) : Prop :=
  ∀ p ∈ r.kv, ∃ sfx : String, p.1 = "task:" ++ sfx ∧ ':' ∈ sfx.data

/-- Every durable task id was generated by `uuid.uuid4()`, hence colon-free. -/
def DbIdsColonFree (db : List AgentTask) : Prop :=
  ∀ t ∈ db, ':' ∉ t.taskId.data

/-- The reachable-state invariant behind the handle/UUID key mismatch. -/
def SysInv (s : SysState) : Prop :=
  KvHandleShaped s.redis ∧ DbIdsColonFree s.db

/-! ## Theorems -/

/-- C1: the durable status of every task stays inside
\x7bpending, running, completed, failed\x7d and never moves backward.  FALSE
in the code: the cache blob is keyed by the queue handle
`agent_type:timestamp` while `read_task` looks it up by the row's UUID, so
`get_task_status` returns the `not_found` sentinel and the reconciliation
assigns it into the durable status.  Here, immediately after a submission,
the owner's first GET flips the row's status from `pending` to
`"not_found"`, a value outside the permitted set. -/
theorem read_task_sets_status_not_found :
    ((read_task sAfterCreate "a1" owner1).2.db.map (fun t => t.status))
        = ["not_found"]
      ∧ "not_found" ∉ ["pending", "running", "completed", "failed"] :=
  ⟨rfl, by decide⟩

/-- C2: every task reaching a terminal state gets `completed_at` set at that
transition.  FALSE in the code: `worker.process_task` commits
`status="completed"`/`"failed"` without ever assigning `completed_at`, and
the reconciliation path can only set it on a queue-cache hit, which the key
mismatch rules out — after the worker finishes an item, successfully or by
a raised exception, `completed_at` is still null. -/
theorem worker_leaves_completed_at_unset :
    ((worker_pass sAfterCreate handlersOk).db.map
        (fun t => (t.status, t.completedAt))) = [("completed", none)]
      ∧ ((worker_pass sAfterCreate handlersRaiseBoom).db.map
        (fun t => (t.status, t.completedAt))) = [("failed", none)] :=
  ⟨rfl, rfl⟩

/-- C3, counterexample: a handler result that is a mapping containing an
`"error"` key bound to the empty string (a falsy value) is NOT treated as a
failure — the worker marks the task `completed`. -/
theorem falsy_error_key_completes :
    ((worker_pass sAfterCreate handlersFalsyError).db.map (fun t => t.status))
        = ["completed"]
      ∧ "completed" ≠ "failed" :=
  ⟨rfl, by decide⟩

/-- C6: a submission whose `agent_type` is outside the supported set is
rejected by the pydantic pattern with a validation error, and neither the
durable store nor the queue backend changes. -/
theorem invalid_agent_type_rejected (s : SysState) (userId : Int)
    (task_in : TaskCreate) (uuid : String) (nowDb : Nat) (nowTs nowIso : String)
    (hbad : validAgentType task_in.agentType = false) :
    create_task s userId task_in uuid nowDb nowTs nowIso
      = (.error .validationError, s) := by
  unfold create_task
  simp [hbad]

theorem invalid_agent_type_rejected_witness :
    validAgentType "unknown_type" = false
      ∧ create_task initState 1 ⟨"unknown_type", .vDict []⟩ "u1" 0 "1.0" "t0"
          = (.error .validationError, initState) :=
  ⟨by decide,
   invalid_agent_type_rejected initState 1 ⟨"unknown_type", .vDict []⟩ "u1" 0 "1.0" "t0"
     (by decide)⟩

/-- C7: a single-task GET or DELETE for an absent id signals NotFound, and
one by a requester who is neither the owner nor a superuser signals
Forbidden; in each case the returned value is the bare error (the
`ApiError` carries no task fields, so no part of the body leaks) and the
state — durable store and queue — is returned unchanged. -/
theorem auth_and_not_found_pure (s : SysState) (task_id : String) (u : ApiUser) :
    (s.db.find? (fun t => t.taskId == task_id) = none →
        read_task s task_id u = (.error .notFound, s)
          ∧ delete_task s task_id u = (.error .notFound, s))
      ∧ (∀ task, s.db.find? (fun t => t.taskId == task_id) = some task →
          (task.userId != u.id && !u.isSuperuser) = true →
            read_task s task_id u = (.error .forbidden, s)
              ∧ delete_task s task_id u = (.error .forbidden, s)) := by
  constructor
  · intro hnone
    constructor
    · unfold read_task; rw [hnone]
    · unfold delete_task; rw [hnone]
  · intro task hsome hforb
    constructor
    · unfold read_task; rw [hsome]; simp [hforb]
    · unfold delete_task; rw [hsome]; simp [hforb]

theorem auth_and_not_found_pure_witness :
    (read_task sOneCompleted "aaa" ⟨2, false⟩ = (.error .forbidden, sOneCompleted)
        ∧ delete_task sOneCompleted "aaa" ⟨2, false⟩ = (.error .forbidden, sOneCompleted))
      ∧ (read_task sOneCompleted "zzz" ⟨2, false⟩ = (.error .notFound, sOneCompleted)
        ∧ delete_task sOneCompleted "zzz" ⟨2, false⟩ = (.error .notFound, sOneCompleted)) :=
  ⟨(auth_and_not_found_pure sOneCompleted "aaa" ⟨2, false⟩).2 rowCompleted rfl rfl,
   (auth_and_not_found_pure sOneCompleted "zzz" ⟨2, false⟩).1 rfl⟩

/-- C8: a `status=completed` list query returns exactly the visible tasks
whose reconciled status is `completed`.  FALSE in the code, twice over.
First, the handler's final `db.refresh_all(tasks)` does not exist on an
SQLAlchemy `Session`, so after committing the endpoint raises
`AttributeError` and answers HTTP 500: no task list is ever returned.
Second, the state that commit leaves behind shows the filter ran on the
durable status BEFORE the per-item reconciliation: the only visible,
durably `completed` row was selected by the filter and then had the cache
sentinel `"not_found"` — a status differing from the filter value —
committed into it. -/
theorem list_tasks_raises_after_commit :
    (list_tasks sOneCompleted owner1 0 100 (some "completed") none).1
        = .error .internalError
      ∧ ((list_tasks sOneCompleted owner1 0 100 (some "completed") none).2.db.map
          (fun t => t.status)) = ["not_found"]
      ∧ "not_found" ≠ "completed" :=
  ⟨rfl, rfl, by decide⟩

/-- C9, counterexample: two distinct enqueue calls — different payloads, the
second on the state the first produced — that read the same clock value on
the same queue return the same handle `"trend_analyzer:1.0"`. -/
theorem equal_timestamp_handle_collision :
    (enqueue_task initState.redis "trend_analyzer" (.vDict []) "1.0" "t1").1
      = (enqueue_task
          (enqueue_task initState.redis "trend_analyzer" (.vDict []) "1.0" "t1").2
          "trend_analyzer" (.vDict [("q", .vStr "b")]) "1.0" "t2").1 :=
  rfl

/-! ### Store and dict lemmas -/

theorem getKey_setKey_self {α : Type} :
    ∀ (l : List (String × α)) (k : String) (v : α),
      getKey (setKey l k v) k = some v
  | [], k, v => by simp [setKey, getKey]
  | (k', v') :: rest, k, v => by
    by_cases h : k' = k
    · simp [setKey, h, getKey]
    · simp [setKey, h, getKey, getKey_setKey_self rest k v]

theorem getKey_setKey_ne {α : Type} {k2 k : String} (hk : k2 ≠ k) :
    ∀ (l : List (String × α)) (v : α), getKey (setKey l k v) k2 = getKey l k2
  | [], v => by
    have hk' : ¬ k = k2 := fun hh => hk hh.symm
    simp [setKey, getKey, hk']
  | (k', v') :: rest, v => by
    by_cases h : k' = k
    · have hk' : ¬ k = k2 := fun hh => hk hh.symm
      subst h
      simp [setKey, getKey, hk']
    · by_cases h2 : k' = k2 <;>
        simp [setKey, h, getKey, h2, hk, getKey_setKey_ne hk rest v]

theorem mem_setKey {α : Type} {p : String × α} :
    ∀ {l : List (String × α)} {k : String} {v : α},
      p ∈ setKey l k v → p = (k, v) ∨ p ∈ l := by
  intro l
  induction l with
  | nil => intro k v hp; simp [setKey] at hp; simp [hp]
  | cons q rest ih =>
    intro k v hp
    by_cases h : q.1 = k
    · rcases q with ⟨k', v'⟩
      simp only [setKey] at hp
      rw [if_pos h] at hp
      rcases List.mem_cons.mp hp with h1 | h2
      · exact .inl h1
      · exact .inr (List.mem_cons_of_mem _ h2)
    · rcases q with ⟨k', v'⟩
      simp only [setKey] at hp
      rw [if_neg h] at hp
      rcases List.mem_cons.mp hp with h1 | h2
      · exact .inr (by simp [h1])
      · rcases ih h2 with h3 | h4
        · exact .inl h3
        · exact .inr (List.mem_cons_of_mem _ h4)

theorem mem_of_getKey_eq_some {α : Type} :
    ∀ {l : List (String × α)} {k : String} {v : α},
      getKey l k = some v → (k, v) ∈ l := by
  intro l
  induction l with
  | nil => intro k v h; simp [getKey] at h
  | cons q rest ih =>
    intro k v h
    rcases q with ⟨k', v'⟩
    by_cases hk : k' = k
    · subst hk
      simp [getKey] at h
      simp [h]
    · rw [getKey, if_neg hk] at h
      exact List.mem_cons_of_mem _ (ih h)

theorem dget_dset_self {d : Val} (k : String) (v : Val) (hd : d.isDict = true) :
    (d.dset k v).dget k = some v := by
  cases d <;> simp [Val.isDict] at hd
  simp [Val.dset, Val.dget, getKey_setKey_self]

theorem dget_dset_ne {k2 k : String} (d : Val) (v : Val) (hk : k2 ≠ k) :
    (d.dset k v).dget k2 = d.dget k2 := by
  cases d <;> simp [Val.dset, Val.dget]
  exact getKey_setKey_ne hk _ _

theorem isDict_dset (d : Val) (k : String) (v : Val) :
    (d.dset k v).isDict = d.isDict := by
  cases d <;> rfl

theorem getList_setList_self (r : RedisState) (key : String) (l : List Val) :
    (r.setList key l).getList key = l := by
  simp [RedisState.setList, RedisState.getList, getKey_setKey_self]

theorem getList_setList_ne (r : RedisState) {key2 key : String}
    (hk : key2 ≠ key) (l : List Val) :
    (r.setList key l).getList key2 = r.getList key2 := by
  simp [RedisState.setList, RedisState.getList, getKey_setKey_ne hk]

theorem getList_kvSet (r : RedisState) (k : String) (v : Val) (key : String) :
    (r.kvSet k v).getList key = r.getList key := rfl

theorem kv_setList (r : RedisState) (key : String) (l : List Val) :
    (r.setList key l).kv = r.kv := rfl

/-- Left cancellation for string concatenation. -/
theorem string_append_left_cancel {p a b : String} (h : p ++ a = p ++ b) :
    a = b := by
  apply String.ext
  have hd : p.data ++ a.data = p.data ++ b.data := by
    rw [← String.data_append, ← String.data_append, h]
  exact List.append_cancel_left hd

/-- C3 (amended): a dequeued work item whose row exists and whose handler
returns a mapping with a truthy `"error"` entry is recorded `failed`, with
the durable `error` populated from that entry and the mapping stored as the
result — the same terminal bookkeeping a raised exception gets.  (The
counterexample `falsy_error_key_completes` shows the truthiness hypothesis
cannot be dropped: a falsy `"error"` value completes the task.) -/
theorem truthy_error_dict_marks_failed (s : SysState) (h : Handlers)
    (task_data : Val) (row : AgentTask) (res : Val)
    (hrow : s.db.find? (workItemMatches task_data) = some row)
    (hdisp : dispatch_agent h (task_data.dget "agent_type")
        ((task_data.dget "input_data").getD (.vDict [])) = .result (.ok res))
    (hdict : res.isDict = true)
    (herr : truthyOpt (res.dget "error") = true) :
    (process_task s h task_data).db
      = updateFirst (workItemMatches task_data)
          (fun _ => { row with
            status := "failed", error := res.dget "error", result := some res })
          s.db := by
  unfold process_task
  rw [hrow]
  simp only [process_outcome]
  rw [hdisp]
  simp [hdict, herr]

theorem truthy_error_dict_marks_failed_witness :
    (process_task sAfterCreate handlersTruthyError taskDataA1).db
      = updateFirst (workItemMatches taskDataA1)
          (fun _ => { rowA1 with
            status := "failed",
            error := (Val.vDict [("error", .vStr "boom")]).dget "error",
            result := some (.vDict [("error", .vStr "boom")]) })
          sAfterCreate.db :=
  truthy_error_dict_marks_failed sAfterCreate handlersTruthyError taskDataA1 rowA1
    (.vDict [("error", .vStr "boom")]) rfl rfl rfl rfl

/-! ### FIFO of the queue lists -/

theorem enqueue_task_handle (r : RedisState) (q : String) (d : Val)
    (ts iso : String) : (enqueue_task r q d ts iso).1 = q ++ ":" ++ ts := rfl

theorem enqueue_task_getList_self (r : RedisState) (q : String) (d : Val)
    (ts iso : String) :
    (enqueue_task r q d ts iso).2.getList ("queue:" ++ q)
      = stamped d (q ++ ":" ++ ts) iso :: r.getList ("queue:" ++ q) := by
  unfold enqueue_task RedisState.lpush
  rw [getList_kvSet, getList_setList_self]
  rfl

theorem drainFrom_spec :
    ∀ (n : Nat) (r : RedisState) (q : String),
      (r.getList ("queue:" ++ q)).length = n →
      drainFrom r q n = (r.getList ("queue:" ++ q)).reverse := by
  intro n
  induction n with
  | zero =>
    intro r q hlen
    rw [List.length_eq_zero.mp hlen]
    rfl
  | succ k ih =>
    intro r q hlen
    have hne : r.getList ("queue:" ++ q) ≠ [] := by
      intro h0
      rw [h0] at hlen
      simp at hlen
    rw [drainFrom]
    unfold get_next_task RedisState.rpop
    rw [List.getLast?_eq_getLast _ hne]
    simp only []
    have hlist : (r.setList ("queue:" ++ q)
        (r.getList ("queue:" ++ q)).dropLast).getList ("queue:" ++ q)
        = (r.getList ("queue:" ++ q)).dropLast := getList_setList_self _ _ _
    have hlen' : ((r.setList ("queue:" ++ q)
        (r.getList ("queue:" ++ q)).dropLast).getList ("queue:" ++ q)).length = k := by
      rw [hlist, List.length_dropLast, hlen]
      rfl
    rw [ih _ _ hlen', hlist]
    calc (r.getList ("queue:" ++ q)).getLast hne
            :: (r.getList ("queue:" ++ q)).dropLast.reverse
        = ([(r.getList ("queue:" ++ q)).getLast hne]).reverse
            ++ (r.getList ("queue:" ++ q)).dropLast.reverse := by simp
      _ = ((r.getList ("queue:" ++ q)).dropLast
            ++ [(r.getList ("queue:" ++ q)).getLast hne]).reverse := by
          rw [List.reverse_append]
      _ = (r.getList ("queue:" ++ q)).reverse := by
          rw [List.dropLast_append_getLast]

/-- C4: FIFO round trip.  After enqueuing payload `A` and then payload `B`
onto queue `q`, draining the queue by repeated `get_next_task` returns the
items that were already there (oldest first), then `A`, then `B` — `A`
strictly before `B` — and each comes back as the very payload that was
enqueued, carrying its enqueue call's returned handle under `"id"` and
`"status": "pending"`. -/
theorem enqueue_dequeue_fifo (r : RedisState) (q : String) (A B : Val)
    (tsA isoA tsB isoB : String) (hA : A.isDict = true) (hB : B.isDict = true) :
    (enqueue_task r q A tsA isoA).1 = q ++ ":" ++ tsA
      ∧ (enqueue_task (enqueue_task r q A tsA isoA).2 q B tsB isoB).1
          = q ++ ":" ++ tsB
      ∧ drainFrom (enqueue_task (enqueue_task r q A tsA isoA).2 q B tsB isoB).2 q
          ((enqueue_task (enqueue_task r q A tsA isoA).2 q B tsB
              isoB).2.getList ("queue:" ++ q)).length
          = (r.getList ("queue:" ++ q)).reverse
              ++ [stamped A (q ++ ":" ++ tsA) isoA, stamped B (q ++ ":" ++ tsB) isoB]
      ∧ (stamped A (q ++ ":" ++ tsA) isoA).dget "id"
          = some (.vStr (q ++ ":" ++ tsA))
      ∧ (stamped A (q ++ ":" ++ tsA) isoA).dget "status" = some (.vStr "pending")
      ∧ (stamped B (q ++ ":" ++ tsB) isoB).dget "id"
          = some (.vStr (q ++ ":" ++ tsB))
      ∧ (stamped B (q ++ ":" ++ tsB) isoB).dget "status" = some (.vStr "pending") := by
  have hgl : (enqueue_task (enqueue_task r q A tsA isoA).2 q B tsB
      isoB).2.getList ("queue:" ++ q)
      = stamped B (q ++ ":" ++ tsB) isoB :: stamped A (q ++ ":" ++ tsA) isoA
          :: r.getList ("queue:" ++ q) := by
    rw [enqueue_task_getList_self, enqueue_task_getList_self]
  have hid : ∀ (d : Val) (handle iso : String), d.isDict = true →
      (stamped d handle iso).dget "id" = some (.vStr handle) := by
    intro d handle iso hd
    unfold stamped
    rw [dget_dset_ne _ _ (by decide), dget_dset_ne _ _ (by decide),
      dget_dset_self _ _ hd]
  have hst : ∀ (d : Val) (handle iso : String), d.isDict = true →
      (stamped d handle iso).dget "status" = some (.vStr "pending") := by
    intro d handle iso hd
    unfold stamped
    rw [dget_dset_ne _ _ (by decide),
      dget_dset_self _ _ (by rw [isDict_dset]; exact hd)]
  refine ⟨rfl, rfl, ?_, hid A _ _ hA, hst A _ _ hA, hid B _ _ hB, hst B _ _ hB⟩
  rw [drainFrom_spec _ _ _ rfl, hgl]
  simp

theorem enqueue_dequeue_fifo_witness :
    drainFrom (enqueue_task
        (enqueue_task initState.redis "q" (.vDict [("p", .vStr "A")]) "1" "tA").2
        "q" (.vDict [("p", .vStr "B")]) "2" "tB").2 "q"
      ((enqueue_task
        (enqueue_task initState.redis "q" (.vDict [("p", .vStr "A")]) "1" "tA").2
        "q" (.vDict [("p", .vStr "B")]) "2" "tB").2.getList ("queue:" ++ "q")).length
      = (initState.redis.getList ("queue:" ++ "q")).reverse
          ++ [stamped (.vDict [("p", .vStr "A")]) ("q" ++ ":" ++ "1") "tA",
              stamped (.vDict [("p", .vStr "B")]) ("q" ++ ":" ++ "2") "tB"] :=
  (enqueue_dequeue_fifo initState.redis "q" (.vDict [("p", .vStr "A")])
    (.vDict [("p", .vStr "B")]) "1" "tA" "2" "tB" rfl rfl).2.2.1

/-! ### Worker terminality and loop continuation -/

theorem process_task_redis (s : SysState) (h : Handlers) (d : Val) :
    (process_task s h d).redis = s.redis := by
  unfold process_task
  cases s.db.find? (workItemMatches d) <;> rfl

theorem worker_step_getList_self (h : Handlers) (s : SysState) (q : String) :
    (worker_step h s q).redis.getList ("queue:" ++ q)
      = (s.redis.getList ("queue:" ++ q)).dropLast := by
  unfold worker_step get_next_task RedisState.rpop
  cases hl : (s.redis.getList ("queue:" ++ q)).getLast? with
  | none =>
    have : s.redis.getList ("queue:" ++ q) = [] := by
      simpa using List.getLast?_eq_none_iff.mp hl
    simp [this]
  | some v =>
    simp only []
    rw [process_task_redis]
    exact getList_setList_self _ _ _

theorem worker_step_getList_ne (h : Handlers) (s : SysState) {q2 q : String}
    (hq : q2 ≠ q) :
    (worker_step h s q).redis.getList ("queue:" ++ q2)
      = s.redis.getList ("queue:" ++ q2) := by
  have hkey : ("queue:" ++ q2 : String) ≠ "queue:" ++ q := by
    intro hk
    exact hq (string_append_left_cancel hk)
  unfold worker_step get_next_task RedisState.rpop
  cases hl : (s.redis.getList ("queue:" ++ q)).getLast? with
  | none => rfl
  | some v =>
    simp only []
    rw [process_task_redis]
    exact getList_setList_ne _ hkey _

theorem passOver_cons (h : Handlers) (x : String) (xs : List String)
    (s : SysState) :
    passOver h (x :: xs) s = passOver h xs (worker_step h s x) := rfl

theorem passOver_getList_not_mem (h : Handlers) :
    ∀ (qs : List String) (s : SysState) (q : String), q ∉ qs →
      (passOver h qs s).redis.getList ("queue:" ++ q)
        = s.redis.getList ("queue:" ++ q)
  | [], _, q, _ => rfl
  | x :: xs, s, q, hq => by
    rw [passOver_cons]
    have hx : q ≠ x := fun hh => hq (hh ▸ List.mem_cons_self x xs)
    rw [passOver_getList_not_mem h xs _ _ (fun hh => hq (List.mem_cons_of_mem x hh))]
    exact worker_step_getList_ne h s hx

theorem passOver_getList_mem (h : Handlers) :
    ∀ (qs : List String) (s : SysState) (q : String), q ∈ qs → qs.Nodup →
      (passOver h qs s).redis.getList ("queue:" ++ q)
        = (s.redis.getList ("queue:" ++ q)).dropLast
  | [], _, q, hq, _ => absurd hq (List.not_mem_nil q)
  | x :: xs, s, q, hq, hnd => by
    rw [passOver_cons]
    have hnd' := List.nodup_cons.mp hnd
    rcases List.mem_cons.mp hq with rfl | hq2
    · rw [passOver_getList_not_mem h xs _ _ hnd'.1]
      exact worker_step_getList_self h s q
    · have hx : q ≠ x := fun hh => hnd'.1 (hh ▸ hq2)
      rw [passOver_getList_mem h xs _ _ hq2 hnd'.2]
      rw [worker_step_getList_ne h s hx]

theorem process_outcome_status (h : Handlers) (task_data : Val) (row : AgentTask) :
    (process_outcome h task_data row).status = "completed"
      ∨ (process_outcome h task_data row).status = "failed" := by
  rcases hd : dispatch_agent h (task_data.dget "agent_type")
      ((task_data.dget "input_data").getD (.vDict [])) with o | m
  · rcases o with v | m
    · simp only [process_outcome, hd]
      split
      · simp
      · split <;> simp
    · simp [process_outcome, hd]
  · simp [process_outcome, hd]

theorem process_outcome_raised (h : Handlers) (task_data : Val) (row : AgentTask)
    (m : String)
    (hd : dispatch_agent h (task_data.dget "agent_type")
        ((task_data.dget "input_data").getD (.vDict [])) = .result (.raised m)) :
    (process_outcome h task_data row).status = "failed"
      ∧ (process_outcome h task_data row).error = some (.vStr m) := by
  constructor <;> simp [process_outcome, hd]

/-- C5 (amended): for a dequeued work item whose durable row exists, the
worker's per-item processing always commits a terminal status — `completed`
or `failed`, never `running`; when the handler raised with message `m`, the
row becomes `failed` with `error` equal to the stringified exception (which
is non-empty exactly when the exception's string form is — the
counterexample `empty_exception_message_empty_error` shows it can be
empty).  And one cycle of the dispatch loop consumes the tail item of every
monitored queue, whatever any handler did: a per-item failure never stops
the loop. -/
theorem process_task_terminal (s : SysState) (h : Handlers)
    (task_data : Val) (row : AgentTask)
    (hrow : s.db.find? (workItemMatches task_data) = some row) :
    ((process_task s h task_data).db
        = updateFirst (workItemMatches task_data)
            (fun _ => process_outcome h task_data row) s.db)
      ∧ ((process_outcome h task_data row).status = "completed"
          ∨ (process_outcome h task_data row).status = "failed")
      ∧ (∀ m, dispatch_agent h (task_data.dget "agent_type")
            ((task_data.dget "input_data").getD (.vDict [])) = .result (.raised m) →
          (process_outcome h task_data row).status = "failed"
            ∧ (process_outcome h task_data row).error = some (.vStr m))
      ∧ (∀ q ∈ queues_to_monitor,
          (worker_pass s h).redis.getList ("queue:" ++ q)
            = (s.redis.getList ("queue:" ++ q)).dropLast) := by
  refine ⟨?_, process_outcome_status h task_data row,
    fun m hm => process_outcome_raised h task_data row m hm, ?_⟩
  · unfold process_task
    rw [hrow]
  · intro q hq
    exact passOver_getList_mem h queues_to_monitor s q hq (by decide)

theorem process_task_terminal_witness :
    (process_outcome handlersRaiseBoom taskDataA1 rowA1).status = "failed"
      ∧ (process_outcome handlersRaiseBoom taskDataA1 rowA1).error
          = some (.vStr "boom") :=
  (process_task_terminal sAfterCreate handlersRaiseBoom taskDataA1 rowA1 rfl).2.2.1
    "boom" rfl

/-- C5, counterexample to the claim as stated: a handler raising an
exception with empty `str(e)` (as `raise ValueError()` does) leaves the row
`failed` but with an EMPTY error string — the durable `error` is the
stringified exception, not guaranteed non-empty. -/
theorem empty_exception_message_empty_error :
    ((worker_pass sAfterCreate handlersRaiseEmpty).db.map
        (fun t => (t.status, t.error))) = [("failed", some (.vStr ""))] := rfl

/-! ### List filtering and reconciliation order -/

theorem mem_insertDesc {x t : AgentTask} :
    ∀ {l : List AgentTask}, x ∈ insertDesc t l → x = t ∨ x ∈ l
  | [], h => by
    rw [insertDesc] at h
    exact .inl (List.mem_singleton.mp h)
  | y :: ys, h => by
    by_cases hc : y.createdAt < t.createdAt
    · rw [insertDesc, if_pos hc] at h
      rcases List.mem_cons.mp h with h1 | h2
      · exact .inl h1
      · exact .inr h2
    · rw [insertDesc, if_neg hc] at h
      rcases List.mem_cons.mp h with h1 | h2
      · exact .inr (by simp [h1])
      · rcases mem_insertDesc h2 with h3 | h4
        · exact .inl h3
        · exact .inr (List.mem_cons_of_mem _ h4)

theorem mem_sortByCreatedDesc {x : AgentTask} :
    ∀ {l : List AgentTask}, x ∈ sortByCreatedDesc l → x ∈ l := by
  intro l
  induction l with
  | nil => intro h; simp [sortByCreatedDesc] at h
  | cons y ys ih =>
    intro h
    simp only [sortByCreatedDesc, List.foldr] at h
    rcases mem_insertDesc h with h1 | h2
    · simp [h1]
    · exact List.mem_cons_of_mem _ (ih h2)

theorem mem_visibleTasks {x : AgentTask} {db : List AgentTask} {u : ApiUser}
    (h : x ∈ visibleTasks db u) :
    x ∈ db ∧ (u.isSuperuser = true ∨ x.userId = u.id) := by
  unfold visibleTasks at h
  by_cases hs : u.isSuperuser
  · rw [if_pos hs] at h
    exact ⟨h, .inl hs⟩
  · rw [if_neg hs] at h
    have := List.mem_filter.mp h
    refine ⟨this.1, .inr ?_⟩
    simpa using this.2

theorem mem_applyAgentTypeFilter {x : AgentTask} {f : Option String}
    {l : List AgentTask} (h : x ∈ applyAgentTypeFilter f l) : x ∈ l := by
  unfold applyAgentTypeFilter at h
  by_cases hb : strOptTruthy f
  · rw [if_pos hb] at h
    exact (List.mem_filter.mp h).1
  · rwa [if_neg hb] at h

/-! ### Handle uniqueness -/

theorem sep_split_unique {c : Char} :
    ∀ {l1 l2 r1 r2 : List Char}, c ∉ r1 → c ∉ r2 →
      l1 ++ c :: r1 = l2 ++ c :: r2 → l1 = l2 ∧ r1 = r2
  | [], l2, r1, r2, hr1, hr2, h => by
    cases l2 with
    | nil =>
      simp only [List.nil_append, List.cons.injEq] at h
      exact ⟨rfl, h.2⟩
    | cons b bs =>
      simp only [List.nil_append, List.cons_append, List.cons.injEq] at h
      rcases h with ⟨rfl, h2⟩
      exact absurd (h2 ▸ List.mem_append_right bs (List.mem_cons_self c r2)) hr1
  | a :: as, l2, r1, r2, hr1, hr2, h => by
    cases l2 with
    | nil =>
      simp only [List.nil_append, List.cons_append, List.cons.injEq] at h
      rcases h with ⟨rfl, h2⟩
      exact absurd (h2.symm ▸ List.mem_append_right as (List.mem_cons_self a r1)) hr2
    | cons b bs =>
      simp only [List.cons_append, List.cons.injEq] at h
      rcases h with ⟨rfl, h2⟩
      rcases sep_split_unique hr1 hr2 h2 with ⟨h3, h4⟩
      exact ⟨by rw [h3], h4⟩

theorem handle_data (q t : String) :
    ((q ++ ":" ++ t) : String).data = q.data ++ ':' :: t.data := by
  rw [String.data_append, String.data_append]
  simp

/-- C9 (amended): two enqueue calls return distinct handles provided they
differ in queue name or in the `datetime.utcnow().timestamp()` reading
(timestamp strings contain no colon); `equal_timestamp_handle_collision`
shows two calls on the same queue that read the same clock value collide. -/
theorem handles_distinct_of_distinct_clock (r r2 : RedisState)
    (q1 q2 : String) (d1 d2 : Val) (t1 t2 iso1 iso2 : String)
    (h1 : ':' ∉ t1.data) (h2 : ':' ∉ t2.data)
    (hne : q1 ≠ q2 ∨ t1 ≠ t2) :
    (enqueue_task r q1 d1 t1 iso1).1 ≠ (enqueue_task r2 q2 d2 t2 iso2).1 := by
  intro hcontra
  rw [enqueue_task_handle, enqueue_task_handle] at hcontra
  have hdata : q1.data ++ ':' :: t1.data = q2.data ++ ':' :: t2.data := by
    have hd := congrArg String.data hcontra
    rwa [handle_data, handle_data] at hd
  rcases sep_split_unique h1 h2 hdata with ⟨hq, ht⟩
  rcases hne with hne | hne
  · exact hne (String.ext hq)
  · exact hne (String.ext ht)

theorem handles_distinct_of_distinct_clock_witness :
    (':' ∉ ("1.0" : String).data) ∧ (':' ∉ ("2.0" : String).data)
      ∧ (enqueue_task initState.redis "trend_analyzer" (.vDict []) "1.0" "t1").1
          ≠ (enqueue_task initState.redis "trend_analyzer" (.vDict []) "2.0" "t2").1 :=
  ⟨by decide, by decide,
   handles_distinct_of_distinct_clock initState.redis initState.redis
     "trend_analyzer" "trend_analyzer" (.vDict []) (.vDict []) "1.0" "2.0" "t1" "t2"
     (by decide) (by decide) (.inr (by decide))⟩


/-! ### Reachability invariant: the cache is never keyed by a UUID -/

theorem mem_updateFirst {α : Type} {p : α → Bool} {f : α → α} {x : α} :
    ∀ {l : List α}, x ∈ updateFirst p f l → x ∈ l ∨ ∃ y, y ∈ l ∧ x = f y
  | [], h => by simp [updateFirst] at h
  | a :: as, h => by
    by_cases hp : p a
    · rw [updateFirst, if_pos hp] at h
      rcases List.mem_cons.mp h with h1 | h2
      · exact .inr ⟨a, List.mem_cons_self a as, h1⟩
      · exact .inl (List.mem_cons_of_mem _ h2)
    · rw [updateFirst, if_neg hp] at h
      rcases List.mem_cons.mp h with h1 | h2
      · exact .inl (by simp [h1])
      · rcases mem_updateFirst h2 with h3 | ⟨y, hy, h4⟩
        · exact .inl (List.mem_cons_of_mem _ h3)
        · exact .inr ⟨y, List.mem_cons_of_mem _ hy, h4⟩

theorem mem_removeFirst {α : Type} {p : α → Bool} {x : α} :
    ∀ {l : List α}, x ∈ removeFirst p l → x ∈ l
  | [], h => by simp [removeFirst] at h
  | a :: as, h => by
    by_cases hp : p a
    · rw [removeFirst, if_pos hp] at h
      exact List.mem_cons_of_mem _ h
    · rw [removeFirst, if_neg hp] at h
      rcases List.mem_cons.mp h with h1 | h2
      · exact by simp [h1]
      · exact List.mem_cons_of_mem _ (mem_removeFirst h2)

theorem reconcile_taskId (r : RedisState) (t : AgentTask) :
    (reconcile_task r t).taskId = t.taskId := by
  simp only [reconcile_task]
  split
  · rfl
  · split <;> split <;> rfl

theorem process_outcome_taskId (h : Handlers) (task_data : Val)
    (row : AgentTask) :
    (process_outcome h task_data row).taskId = row.taskId := by
  rcases hd : dispatch_agent h (task_data.dget "agent_type")
      ((task_data.dget "input_data").getD (.vDict [])) with o | m
  · rcases o with v | m
    · simp only [process_outcome, hd]
      split
      · rfl
      · split <;> rfl
    · simp [process_outcome, hd]
  · simp [process_outcome, hd]

theorem mem_applyStatusFilter_weak {x : AgentTask} {f : Option String}
    {l : List AgentTask} (h : x ∈ applyStatusFilter f l) : x ∈ l := by
  unfold applyStatusFilter at h
  by_cases hb : strOptTruthy f
  · rw [if_pos hb] at h
    exact (List.mem_filter.mp h).1
  · rwa [if_neg hb] at h

theorem enqueue_task_kv (r : RedisState) (q : String) (d : Val)
    (ts iso : String) :
    (enqueue_task r q d ts iso).2.kv
      = setKey r.kv ("task:" ++ (q ++ ":" ++ ts))
          (stamped d (q ++ ":" ++ ts) iso) := rfl

theorem kvShaped_enqueue (r : RedisState) (q : String) (d : Val)
    (ts iso : String) (hr : KvHandleShaped r) :
    KvHandleShaped (enqueue_task r q d ts iso).2 := by
  intro p hp
  rw [enqueue_task_kv] at hp
  rcases mem_setKey hp with h1 | h2
  · refine ⟨q ++ ":" ++ ts, by rw [h1], ?_⟩
    rw [handle_data]
    exact List.mem_append_right _ (List.mem_cons_self _ _)
  · exact hr p h2

theorem kvShaped_update (r : RedisState) (tid st : String) (res : Option Val)
    (iso : String) (hr : KvHandleShaped r) :
    KvHandleShaped (update_task_status r tid st res iso) := by
  unfold update_task_status RedisState.kvGet
  cases hg : getKey r.kv ("task:" ++ tid) with
  | none => exact hr
  | some v =>
    have hmem := mem_of_getKey_eq_some hg
    cases v with
    | vDict fs =>
      intro p hp
      rcases mem_setKey hp with h1 | h2
      · rcases hr _ hmem with ⟨sfx, hk, hcol⟩
        exact ⟨sfx, by rw [h1]; exact hk, hcol⟩
      · exact hr p h2
    | vNull => exact hr
    | vBool b => exact hr
    | vInt n => exact hr
    | vStr sv => exact hr
    | vList xs => exact hr

theorem worker_step_kv (h : Handlers) (s : SysState) (q : String) :
    (worker_step h s q).redis.kv = s.redis.kv := by
  unfold worker_step get_next_task RedisState.rpop
  cases hl : (s.redis.getList ("queue:" ++ q)).getLast? with
  | none => rfl
  | some v =>
    simp only []
    rw [process_task_redis]
    rfl

theorem dbIds_process_task (s : SysState) (h : Handlers) (d : Val)
    (hdb : DbIdsColonFree s.db) : DbIdsColonFree (process_task s h d).db := by
  unfold process_task
  cases hf : s.db.find? (workItemMatches d) with
  | none => exact hdb
  | some row =>
    intro x hx
    rcases mem_updateFirst hx with h1 | ⟨y, hy, rfl⟩
    · exact hdb x h1
    · rw [process_outcome_taskId]
      exact hdb row (List.mem_of_find?_eq_some hf)

theorem dbIds_worker_step (h : Handlers) (s : SysState) (q : String)
    (hdb : DbIdsColonFree s.db) : DbIdsColonFree (worker_step h s q).db := by
  unfold worker_step
  rcases hg : get_next_task s.redis q with ⟨fst, snd⟩
  cases fst with
  | none => exact hdb
  | some td => exact dbIds_process_task { s with redis := snd } h td hdb

theorem sysInv_worker_step (h : Handlers) (s : SysState) (q : String)
    (hinv : SysInv s) : SysInv (worker_step h s q) := by
  constructor
  · intro p hp
    rw [worker_step_kv] at hp
    exact hinv.1 p hp
  · exact dbIds_worker_step h s q hinv.2

theorem sysInv_passOver (h : Handlers) :
    ∀ (qs : List String) (s : SysState), SysInv s → SysInv (passOver h qs s)
  | [], s, hinv => hinv
  | q :: qs, s, hinv => by
    rw [passOver_cons]
    exact sysInv_passOver h qs _ (sysInv_worker_step h s q hinv)

theorem dbIds_foldl_updateFirst :
    ∀ (ts : List AgentTask) (acc : List AgentTask),
      DbIdsColonFree acc → (∀ t ∈ ts, ':' ∉ t.taskId.data) →
      DbIdsColonFree (ts.foldl (fun acc t =>
        updateFirst (fun x => x.taskId == t.taskId) (fun _ => t) acc) acc) := by
  intro ts
  induction ts with
  | nil => intro acc hacc _; exact hacc
  | cons t1 rest ih =>
    intro acc hacc hts
    rw [List.foldl_cons]
    apply ih
    · intro x hx
      rcases mem_updateFirst hx with h1 | ⟨y, hy, h2⟩
      · exact hacc x h1
      · rw [h2]
        exact hts t1 (List.mem_cons_self _ _)
    · intro t2 ht2
      exact hts t2 (List.mem_cons_of_mem _ ht2)

theorem sysInv_create (s : SysState) (uid : Int) (tin : TaskCreate)
    (uuid : String) (nd : Nat) (ts iso : String)
    (hu : ':' ∉ uuid.data) (hinv : SysInv s) :
    SysInv (create_task s uid tin uuid nd ts iso).2 := by
  unfold create_task
  by_cases hv : validAgentType tin.agentType
  · rw [if_pos hv]
    constructor
    · exact kvShaped_enqueue _ _ _ _ _ hinv.1
    · intro t ht
      rcases List.mem_append.mp ht with h1 | h2
      · exact hinv.2 t h1
      · rw [List.mem_singleton.mp h2]
        exact hu
  · rw [if_neg hv]
    exact hinv

theorem sysInv_read (s : SysState) (tid : String) (u : ApiUser)
    (hinv : SysInv s) : SysInv (read_task s tid u).2 := by
  unfold read_task
  split
  · exact hinv
  · rename_i task heq
    split
    · exact hinv
    · constructor
      · exact hinv.1
      · intro x hx
        rcases mem_updateFirst hx with h1 | ⟨y, hy, rfl⟩
        · exact hinv.2 x h1
        · rw [reconcile_taskId]
          exact hinv.2 task (List.mem_of_find?_eq_some heq)

theorem sysInv_list (s : SysState) (u : ApiUser) (skip limit : Nat)
    (stF atF : Option String) (hinv : SysInv s) :
    SysInv (list_tasks s u skip limit stF atF).2 := by
  constructor
  · exact hinv.1
  · exact dbIds_foldl_updateFirst
      ((((sortByCreatedDesc (applyAgentTypeFilter atF (applyStatusFilter stF
        (visibleTasks s.db u)))).drop skip).take limit).map
          (reconcile_task s.redis))
      s.db hinv.2 (by
        intro t2 ht2
        rcases List.mem_map.mp ht2 with ⟨t0, ht0, rfl⟩
        rw [reconcile_taskId]
        exact hinv.2 t0 (mem_visibleTasks (mem_applyStatusFilter_weak
          (mem_applyAgentTypeFilter (mem_sortByCreatedDesc
            (List.drop_subset _ _ (List.take_subset _ _ ht0)))))).1)

theorem sysInv_delete (s : SysState) (tid : String) (u : ApiUser)
    (hinv : SysInv s) : SysInv (delete_task s tid u).2 := by
  unfold delete_task
  split
  · exact hinv
  · split
    · exact hinv
    · exact ⟨hinv.1, fun x hx => hinv.2 x (mem_removeFirst hx)⟩

theorem sysInv_applyOp (s : SysState) (op : Op) (hu : op.uuidOk)
    (hinv : SysInv s) : SysInv (applyOp s op) := by
  cases op with
  | create uid tin uuid nd ts iso => exact sysInv_create s uid tin uuid nd ts iso hu hinv
  | read tid u => exact sysInv_read s tid u hinv
  | listOp u skip limit stF atF => exact sysInv_list s u skip limit stF atF hinv
  | del tid u => exact sysInv_delete s tid u hinv
  | workerPass h => exact sysInv_passOver h queues_to_monitor s hinv
  | updateStatus tid st res iso =>
    exact ⟨kvShaped_update s.redis tid st res iso hinv.1, hinv.2⟩

theorem sysInv_runOps (ops : List Op) (hok : ∀ op ∈ ops, op.uuidOk) :
    SysInv (runOps ops) := by
  have hgen : ∀ (l : List Op) (s : SysState), SysInv s →
      (∀ op ∈ l, op.uuidOk) → SysInv (l.foldl applyOp s) := by
    intro l
    induction l with
    | nil => intro s hs _; exact hs
    | cons op rest ih =>
      intro s hs hok2
      rw [List.foldl_cons]
      exact ih _ (sysInv_applyOp s op (hok2 op (List.mem_cons_self _ _)) hs)
        (fun o ho => hok2 o (List.mem_cons_of_mem _ ho))
  exact hgen ops initState
    ⟨fun p hp => absurd hp (List.not_mem_nil p),
     fun t ht => absurd ht (List.not_mem_nil t)⟩ hok

theorem cache_lookup_not_found_of_inv (s : SysState) (hinv : SysInv s)
    (t : AgentTask) (ht : t ∈ s.db) :
    get_task_status s.redis t.taskId = .vDict [("status", .vStr "not_found")] := by
  unfold get_task_status RedisState.kvGet
  cases hg : getKey s.redis.kv ("task:" ++ t.taskId) with
  | none => rfl
  | some v =>
    exfalso
    have hpmem := mem_of_getKey_eq_some hg
    rcases hinv.1 _ hpmem with ⟨sfx, hk, hcol⟩
    have hid : t.taskId = sfx := string_append_left_cancel hk
    exact hinv.2 t ht (hid ▸ hcol)

/-- C10: in every state reachable by any sequence of system operations
(submissions, reads, lists, deletes, worker cycles, cache updates — with
the API's UUIDs colon-free, as uuid4 strings are), looking the queue status
cache up by any durable task's `task_id` returns the `not_found` sentinel:
`enqueue_task` keys the blob by its own handle `agent_type:timestamp`,
while the submission service identifies the row by an independent UUID, so
the query service never observes a real cached status. -/
theorem cache_lookup_always_not_found (ops : List Op)
    (hok : ∀ op ∈ ops, op.uuidOk) (t : AgentTask)
    (ht : t ∈ (runOps ops).db) :
    get_task_status (runOps ops).redis t.taskId
      = .vDict [("status", .vStr "not_found")] :=
  cache_lookup_not_found_of_inv _ (sysInv_runOps ops hok) t ht

theorem cache_lookup_always_not_found_witness :
    (∀ op ∈ opsOneCreate, op.uuidOk)
      ∧ get_task_status (runOps opsOneCreate).redis rowA1.taskId
          = .vDict [("status", .vStr "not_found")] := by
  have hok : ∀ op ∈ opsOneCreate, op.uuidOk := by
    intro op hop
    rw [List.mem_singleton.mp hop]
    show ':' ∉ ("a1" : String).data
    decide
  refine ⟨hok, ?_⟩
  have hm : rowA1 ∈ (runOps opsOneCreate).db := by
    rw [show (runOps opsOneCreate).db = [rowA1] from rfl]
    exact List.mem_singleton.mpr rfl
  exact cache_lookup_always_not_found opsOneCreate hok rowA1 hm

end Trendscout
